import Mathlib

/-!
Shallow embedding of the configuration-synthesis core of an ingress
controller for a managed layer-7 gateway: the brownfield pruning of
ingress rules against prohibited targets, listener-identifier
generation, named-port resolution against cached Endpoints, the
build-stage orchestrator, the validation harness and the brownfield
listener partition.  Go slices become Lean lists; a slice whose nil-ness
is semantically relevant (an HTTP rule's path list) becomes an Option of
a list; Go maps used as sets become Finsets; fallible calls return
Except.
-/

namespace AGIC

/-- Target is the (hostname, path) unit compared against
prohibited-target specifications (pkg/brownfield).  The Go zero value of
each field is the empty string. -/
structure Target where
  Hostname : String
  Path : String
deriving DecidableEq, Repr

/-- AzureIngressProhibitedTarget custom-resource spec: an optional
hostname (empty string when absent) and an optional ordered path list
(empty when absent). -/
structure AzureIngressProhibitedTarget where
  Hostname : String
  Paths : List String
deriving DecidableEq, Repr

/-- Modelled from the spec: GetTargetBlacklist is not under src/ (only
its caller PruneIngressRules is); per the spec it builds the blacklist
(host, path) set from the prohibited targets, one entry per listed path,
and a single path-free entry for a target with no paths (which matches
all paths under that host; a target with neither hostname nor paths is
the universal wildcard). -/
def GetTargetBlacklist (prohibitedTargets : List AzureIngressProhibitedTarget) : List Target :=
  prohibitedTargets.foldr
    (fun pt acc =>
      if pt.Paths.isEmpty then { Hostname := pt.Hostname, Path := "" } :: acc
      else pt.Paths.map (fun p => { Hostname := pt.Hostname, Path := p }) ++ acc)
    []

/-- Modelled from the spec: Target.IsBlacklisted is not under src/ (only
its caller PruneIngressRules is); per the spec a blacklist entry with an
empty hostname and empty path matches every target, an entry with a
hostname and empty path matches every target with that hostname
regardless of path, and an entry with hostname and path matches exactly
that (hostname, path). -/
def Target.IsBlacklisted (t : Target) (blacklist : List Target) : Bool :=
  blacklist.any (fun bl =>
    (bl.Hostname == "" || bl.Hostname == t.Hostname) &&
    (bl.Path == "" || bl.Path == t.Path))

/-- HTTPIngressPath from k8s extensions/v1beta1: a path string and the
backend it routes to. -/
structure HTTPIngressPath where
  Path : String
  ServiceName : String
  ServicePort : Int
deriving DecidableEq, Repr

/-- HTTPIngressRuleValue: the path list; `none` models a nil Go slice,
`some []` a non-nil empty slice (the two take different branches in
PruneIngressRules). -/
structure HTTPIngressRuleValue where
  Paths : Option (List HTTPIngressPath)
deriving DecidableEq, Repr

/-- IngressRule: a host and an optional HTTP section (`none` models a
nil HTTP pointer). -/
structure IngressRule where
  Host : String
  HTTP : Option HTTPIngressRuleValue
deriving DecidableEq, Repr

/-- IngressSpec: the rule list (nil and empty Go slices behave
identically in PruneIngressRules, so both are the empty list). -/
structure IngressSpec where
  Rules : List IngressRule
deriving DecidableEq, Repr

/-- Ingress object (only the fields PruneIngressRules reads). -/
structure Ingress where
  Spec : IngressSpec
deriving DecidableEq, Repr

/-- Inner loop of PruneIngressRules over one rule's paths: appends to
the fresh rule exactly the paths whose (rule host, path) target is not
blacklisted, preserving order. -/
def prunePathsLoop (blacklist : List Target) (host : String) :
    List HTTPIngressPath → List HTTPIngressPath
  | [] => []
  | path :: rest =>
    if (Target.mk host path.Path).IsBlacklisted blacklist
    then prunePathsLoop blacklist host rest
    else path :: prunePathsLoop blacklist host rest

/-- Outer loop of PruneIngressRules over the rules (the Go for/append
loop): a rule with a nil HTTP section is skipped; a rule with a nil path
list is kept whole unless its host (with the zero-value path) is
blacklisted; a rule with a path list is rebuilt with the pruned paths
and kept only when more than zero paths remain. -/
def pruneRulesLoop (blacklist : List Target) : List IngressRule → List IngressRule
  | [] => []
  | rule :: rest =>
    match rule.HTTP with
    | none => pruneRulesLoop blacklist rest
    | some http =>
      match http.Paths with
      | none =>
        if (Target.mk rule.Host "").IsBlacklisted blacklist
        then pruneRulesLoop blacklist rest
        else rule :: pruneRulesLoop blacklist rest
      | some paths =>
        let newPaths := prunePathsLoop blacklist rule.Host paths
        if newPaths.length > 0
        then { Host := rule.Host, HTTP := some { Paths := some newPaths } } :: pruneRulesLoop blacklist rest
        else pruneRulesLoop blacklist rest

/-- PruneIngressRules (pkg/brownfield/ingress.go): removes from the
ingress the targets AGIC should not create configuration for.  Returns
the input rules untouched when they are empty or when the derived
blacklist is empty. -/
def PruneIngressRules (ing : Ingress) (prohibitedTargets : List AzureIngressProhibitedTarget) :
    List IngressRule :=
  if ing.Spec.Rules.isEmpty then ing.Spec.Rules
  else
    let blacklist := GetTargetBlacklist prohibitedTargets
    if blacklist.isEmpty then ing.Spec.Rules
    else pruneRulesLoop blacklist ing.Spec.Rules

/-- State-passing rendering of PruneIngressRules: the ingress received
through the pointer is threaded through every statement of the Go body
(none of which assigns to it) and handed back next to the result,
making the absence of mutation a provable statement. -/
def PruneIngressRulesTracked (ing : Ingress) (prohibitedTargets : List AzureIngressProhibitedTarget) :
    Ingress × List IngressRule :=
  if ing.Spec.Rules.isEmpty then (ing, ing.Spec.Rules)
  else
    let blacklist := GetTargetBlacklist prohibitedTargets
    if blacklist.isEmpty then (ing, ing.Spec.Rules)
    else (ing, pruneRulesLoop blacklist ing.Spec.Rules)

/-- ApplicationGatewayProtocol constants of the Azure network SDK are
strings; the builder compares the protocol argument against HTTPS. -/
def protocolHTTP : String := "Http"

/-- HTTPS protocol constant of the Azure network SDK. -/
def protocolHTTPS : String := "Https"

/-- listenerIdentifier: identity of one frontend listener, a resolved
frontend port and a hostname, nothing else. -/
structure listenerIdentifier where
  FrontendPort : Int
  HostName : String
deriving DecidableEq, Repr

/-- generateListenerID (appgw): the frontend port starts at 80, becomes
443 when the protocol is HTTPS, and is replaced by the override whenever
one is supplied; the hostname is taken from the rule. -/
def generateListenerID (rule : IngressRule) (protocol : String) (overridePort : Option Int) :
    listenerIdentifier :=
  let frontendPort : Int := if protocol == protocolHTTPS then 443 else 80
  let frontendPort : Int :=
    match overridePort with
    | some p => p
    | none => frontendPort
  { FrontendPort := frontendPort, HostName := rule.Host }

/-- EndpointPort of a k8s Endpoints subset: a port name and number. -/
structure EndpointPort where
  Name : String
  Port : Int
deriving DecidableEq, Repr

/-- EndpointSubset: its port list (only the field the resolver reads). -/
structure EndpointSubset where
  Ports : List EndpointPort
deriving DecidableEq, Repr

/-- Endpoints object: its subsets. -/
structure Endpoints where
  Subsets : List EndpointSubset
deriving DecidableEq, Repr

/-- serviceIdentifier: namespace and name keying the service caches. -/
structure serviceIdentifier where
  Namespace : String
  Name : String
deriving DecidableEq, Repr

/-- backendIdentifier (only the service-identifier part the port
resolver reads; the ingress/rule/path back-references play no role in
resolution). -/
structure backendIdentifier where
  Namespace : String
  Name : String
deriving DecidableEq, Repr

/-- Modelled from the spec: serviceKey of a backendIdentifier is not
under src/; it is the stable cache key derived from namespace and
name. -/
def backendIdentifier.serviceKey (b : backendIdentifier) : String :=
  b.Namespace ++ "/" ++ b.Name

/-- istioDestinationIdentifier (service-identifier part; the name is the
virtual-service destination host). -/
structure istioDestinationIdentifier where
  Namespace : String
  Name : String
deriving DecidableEq, Repr

/-- Modelled from the spec: serviceKey of an istioDestinationIdentifier
is not under src/; it is the stable cache key derived from namespace and
destination host. -/
def istioDestinationIdentifier.serviceKey (d : istioDestinationIdentifier) : String :=
  d.Namespace ++ "/" ++ d.Name

/-- The endpoint cache read GetEndpointsByService is an external
collaborator: it may error, return no object (nil without error) or
return an Endpoints object. -/
def EndpointsLookup : Type := String → Except String (Option Endpoints)

/-- resolvePortName (appgw): resolves a named port for an ingress
backend; on a cache error, or when the cache holds no Endpoints object,
the empty set comes back, otherwise the matching numeric ports. -/
def resolvePortName (getEndpointsByService : EndpointsLookup) (portName : String)
    (backendID : backendIdentifier) : Finset Int :=
  let resolvedPorts : Finset Int := ∅
  match getEndpointsByService backendID.serviceKey with
  | .error _ => resolvedPorts
  | .ok none => resolvedPorts
  | .ok (some endpoints) =>
    endpoints.Subsets.foldl
      (fun acc subset =>
        subset.Ports.foldl
          (fun acc2 epPort =>
            if epPort.Name == portName then insert epPort.Port acc2 else acc2)
          acc)
      resolvedPorts

/-- resolveIstioPortName (appgw): the virtual-service-destination
variant of resolvePortName, keyed by the destination identifier. -/
def resolveIstioPortName (getEndpointsByService : EndpointsLookup) (portName : String)
    (destinationID : istioDestinationIdentifier) : Finset Int :=
  let resolvedPorts : Finset Int := ∅
  match getEndpointsByService destinationID.serviceKey with
  | .error _ => resolvedPorts
  | .ok none => resolvedPorts
  | .ok (some endpoints) =>
    endpoints.Subsets.foldl
      (fun acc subset =>
        subset.Ports.foldl
          (fun acc2 epPort =>
            if epPort.Name == portName then insert epPort.Port acc2 else acc2)
          acc)
      resolvedPorts

/-- The five build stages and the tag finalizer of the config builder.
Their bodies live outside this core, so Build is parameterized over
them: each stage transforms the accumulated gateway configuration or
fails with its underlying cause. -/
structure BuildStages (σ : Type) where
  HealthProbesCollection : σ → Except String σ
  BackendHTTPSettingsCollection : σ → Except String σ
  BackendAddressPools : σ → Except String σ
  Listeners : σ → Except String σ
  RequestRoutingRules : σ → Except String σ
  addTags : σ → σ

/-- Build (appgw): runs the stages strictly in order; a failing stage
aborts the build, discards the configuration and surfaces only the
stage-specific generic message (the cause is logged, not propagated);
on success the management tags are stamped and the configuration is
returned. -/
def Build {σ : Type} (c : BuildStages σ) (s : σ) : Except String σ :=
  match c.HealthProbesCollection s with
  | .error _ => .error "unable to generate health probes"
  | .ok s1 =>
    match c.BackendHTTPSettingsCollection s1 with
    | .error _ => .error "unable to generate backend http settings"
    | .ok s2 =>
      match c.BackendAddressPools s2 with
      | .error _ => .error "unable to generate backend address pools"
      | .ok s3 =>
        match c.Listeners s3 with
        | .error _ => .error "unable to generate frontend listeners"
        | .ok s4 =>
          match c.RequestRoutingRules s4 with
          | .error _ => .error "unable to generate request routing rules"
          | .ok s5 => .ok (c.addTags s5)

/-- runValidationFunctions (appgw): applies each validator, in list
order, to the fixed argument bundle (recorder, properties, environment,
ingress list, service list — abstracted as one value); the first
validator returning an error ends the run with that error returned
verbatim; success when every validator passes.  A validator result of
none models a nil Go error. -/
def runValidationFunctions {α : Type} (args : α) :
    List (α → Option String) → Option String
  | [] => none
  | fn :: rest =>
    match fn args with
    | some e => some e
    | none => runValidationFunctions args rest

/-- An existing frontend listener of the gateway snapshot, as the
brownfield reconciler sees it: its name, hostname, and the path set of
its attached routing rules. -/
structure Listener where
  Name : String
  HostName : String
  Paths : List String
deriving DecidableEq, Repr

/-- ExistingResources: the gateway's current listeners plus the
prohibited targets. -/
structure ExistingResources where
  Listeners : List Listener
  ProhibitedTargets : List AzureIngressProhibitedTarget
deriving DecidableEq, Repr

/-- Modelled from the spec: the listener blacklist membership test of
the brownfield reconciler is not under src/ (only its tests are); per
the spec a target with empty hostname and empty paths matches every
listener, a target with a hostname and empty paths matches every
listener sharing that hostname, and a target with hostname and paths
matches only listeners whose path set intersects the target's path list
under that hostname. -/
def listenerIsBlacklisted (prohibitedTargets : List AzureIngressProhibitedTarget)
    (l : Listener) : Bool :=
  prohibitedTargets.any (fun pt =>
    if pt.Hostname == "" && pt.Paths.isEmpty then true
    else if pt.Paths.isEmpty then pt.Hostname == l.HostName
    else pt.Hostname == l.HostName && l.Paths.any (fun p => pt.Paths.contains p))

/-- Modelled from the spec: GetBlacklistedListeners is not under src/
(only its tests are); per the spec it partitions the full existing
listener set into the blacklisted and the non-blacklisted listeners
using the membership test. -/
def ExistingResources.GetBlacklistedListeners (er : ExistingResources) :
    List Listener × List Listener :=
  (er.Listeners.filter (fun l => listenerIsBlacklisted er.ProhibitedTargets l),
   er.Listeners.filter (fun l => ! listenerIsBlacklisted er.ProhibitedTargets l))

/-! Theorems. -/

/-- C7: generateListenerID gives frontend port 80 for HTTP with no
override, 443 for HTTPS with no override, and the override value
whenever one is supplied, whatever the protocol. -/
theorem generateListenerID_port_defaulting (rule : IngressRule) :
    (generateListenerID rule protocolHTTP none).FrontendPort = 80 ∧
    (generateListenerID rule protocolHTTPS none).FrontendPort = 443 ∧
    ∀ (protocol : String) (p : Int),
      (generateListenerID rule protocol (some p)).FrontendPort = p := by
  refine ⟨rfl, rfl, ?_⟩
  intro protocol p
  rfl

/-- C2: generateListenerID is a function of the resolved frontend port
and the host only; two rules with the same host and the same protocol
and override collapse onto one listener identifier, and more generally
equal hosts plus equal resolved ports force equal identifiers whatever
the other fields of the rules. -/
theorem generateListenerID_host_port_only
    (r1 r2 : IngressRule) (protocol p1 p2 : String) (o o1 o2 : Option Int) :
    (r1.Host = r2.Host →
      generateListenerID r1 protocol o = generateListenerID r2 protocol o) ∧
    (r1.Host = r2.Host →
      (generateListenerID r1 p1 o1).FrontendPort = (generateListenerID r2 p2 o2).FrontendPort →
      generateListenerID r1 p1 o1 = generateListenerID r2 p2 o2) := by
  have k : ∀ (r : IngressRule) (q : String) (ov : Option Int),
      generateListenerID r q ov = ⟨(generateListenerID r q ov).FrontendPort, r.Host⟩ :=
    fun _ _ _ => rfl
  constructor
  · intro h
    rw [k r1, k r2, h]
    have hp : (generateListenerID r1 protocol o).FrontendPort
        = (generateListenerID r2 protocol o).FrontendPort := rfl
    rw [hp]
  · intro h hport
    rw [k r1, k r2, h, hport]

/-- Closed instance of generateListenerID_host_port_only: two rules
sharing a host, under different protocols but the same explicit
override, produce the same listener identifier. -/
theorem generateListenerID_host_port_only_witness :
    generateListenerID ⟨"app.contoso.com", none⟩ protocolHTTP (some 8080) =
      generateListenerID ⟨"app.contoso.com", some ⟨none⟩⟩ protocolHTTPS (some 8080) :=
  (generateListenerID_host_port_only ⟨"app.contoso.com", none⟩ ⟨"app.contoso.com", some ⟨none⟩⟩
    protocolHTTP protocolHTTP protocolHTTPS (some 8080) (some 8080) (some 8080)).2 rfl rfl

/-- Membership in the inner fold of the port resolvers: a port is
collected from a subset's port list exactly when it was already in the
accumulator or some entry of the list carries the requested name and
that port number. -/
theorem mem_resolve_ports_foldl (portName : String) (p : Int) :
    ∀ (ports : List EndpointPort) (acc : Finset Int),
      (p ∈ ports.foldl
          (fun acc2 epPort =>
            if epPort.Name == portName then insert epPort.Port acc2 else acc2) acc
        ↔ p ∈ acc ∨ ∃ ep ∈ ports, ep.Name = portName ∧ ep.Port = p) := by
  intro ports
  induction ports with
  | nil => intro acc; simp
  | cons ep rest ih =>
    intro acc
    by_cases h : ep.Name = portName
    · simp only [List.foldl_cons, h, beq_self_eq_true, if_true, ih, Finset.mem_insert]
      constructor
      · rintro (⟨hp | hacc⟩ | ⟨e, he, hn, hp⟩)
        · exact Or.inr ⟨ep, by simp, h, hp.symm⟩
        · exact Or.inl hacc
        · exact Or.inr ⟨e, by simp [he], hn, hp⟩
      · rintro (hacc | ⟨e, he, hn, hp⟩)
        · exact Or.inl (Or.inr hacc)
        · rcases List.mem_cons.mp he with rfl | he'
          · exact Or.inl (Or.inl hp.symm)
          · exact Or.inr ⟨e, he', hn, hp⟩
    · have hb : (ep.Name == portName) = false := beq_eq_false_iff_ne.mpr h
      simp only [List.foldl_cons, hb, if_false, ih]
      constructor
      · rintro (hacc | ⟨e, he, hn, hp⟩)
        · exact Or.inl hacc
        · exact Or.inr ⟨e, by simp [he], hn, hp⟩
      · rintro (hacc | ⟨e, he, hn, hp⟩)
        · exact Or.inl hacc
        · rcases List.mem_cons.mp he with rfl | he'
          · exact absurd hn h
          · exact Or.inr ⟨e, he', hn, hp⟩

/-- Membership in the outer fold of the port resolvers, over the
subsets. -/
theorem mem_resolve_subsets_foldl (portName : String) (p : Int) :
    ∀ (subsets : List EndpointSubset) (acc : Finset Int),
      (p ∈ subsets.foldl
          (fun acc subset =>
            subset.Ports.foldl
              (fun acc2 epPort =>
                if epPort.Name == portName then insert epPort.Port acc2 else acc2) acc)
          acc
        ↔ p ∈ acc ∨ ∃ s ∈ subsets, ∃ ep ∈ s.Ports, ep.Name = portName ∧ ep.Port = p) := by
  intro subsets
  induction subsets with
  | nil => intro acc; simp
  | cons sub rest ih =>
    intro acc
    simp only [List.foldl_cons, ih, mem_resolve_ports_foldl]
    constructor
    · rintro (⟨hacc | ⟨e, he, hn, hp⟩⟩ | ⟨s, hs, hrest⟩)
      · exact Or.inl hacc
      · exact Or.inr ⟨sub, by simp, e, he, hn, hp⟩
      · exact Or.inr ⟨s, by simp [hs], hrest⟩
    · rintro (hacc | ⟨s, hs, e, he, hn, hp⟩)
      · exact Or.inl (Or.inl hacc)
      · rcases List.mem_cons.mp hs with rfl | hs'
        · exact Or.inl (Or.inr ⟨e, he, hn, hp⟩)
        · exact Or.inr ⟨s, hs', e, he, hn, hp⟩

/-- C3: resolvePortName returns the empty set when the endpoint cache
lookup errors or holds no Endpoints object, and otherwise exactly the
deduplicated set of numeric ports, over all subsets and all their ports,
whose name equals the requested one; in particular a single subset with
one port named http numbered 8080 resolves name http to the singleton
8080. -/
theorem resolvePortName_spec (getEndpointsByService : EndpointsLookup)
    (portName : String) (backendID : backendIdentifier) :
    (∀ p : Int,
      p ∈ resolvePortName getEndpointsByService portName backendID ↔
        ∃ endpoints, getEndpointsByService backendID.serviceKey = .ok (some endpoints) ∧
          ∃ s ∈ endpoints.Subsets, ∃ ep ∈ s.Ports, ep.Name = portName ∧ ep.Port = p) ∧
    resolvePortName (fun _ => .ok (some ⟨[⟨[⟨"http", 8080⟩]⟩]⟩)) "http" backendID = {8080} := by
  constructor
  · intro p
    unfold resolvePortName
    cases hlook : getEndpointsByService backendID.serviceKey with
    | error e => simp [hlook]
    | ok oe =>
      cases oe with
      | none => simp [hlook]
      | some endpoints =>
        simp only [hlook]
        rw [mem_resolve_subsets_foldl]
        simp
  · have hv : resolvePortName (fun _ => .ok (some ⟨[⟨[⟨"http", 8080⟩]⟩]⟩)) "http" backendID
      = insert (8080 : Int) (∅ : Finset Int) := rfl
    rw [hv]
    decide

/-- C9: resolvePortName and resolveIstioPortName are extensionally the
same function of the cached Endpoints result and the port name: equal
lookup results give equal resolved port sets. -/
theorem resolvePortName_eq_resolveIstioPortName
    (lookup1 lookup2 : EndpointsLookup) (portName : String)
    (backendID : backendIdentifier) (destinationID : istioDestinationIdentifier)
    (h : lookup1 backendID.serviceKey = lookup2 destinationID.serviceKey) :
    resolvePortName lookup1 portName backendID =
      resolveIstioPortName lookup2 portName destinationID := by
  unfold resolvePortName resolveIstioPortName
  rw [h]

/-- Closed instance of resolvePortName_eq_resolveIstioPortName on a
shared one-subset Endpoints cache. -/
theorem resolvePortName_eq_resolveIstioPortName_witness :
    resolvePortName (fun _ => .ok (some ⟨[⟨[⟨"http", 8080⟩]⟩]⟩)) "http" ⟨"ns", "svc"⟩ =
      resolveIstioPortName (fun _ => .ok (some ⟨[⟨[⟨"http", 8080⟩]⟩]⟩)) "http" ⟨"ns", "dest-host"⟩ :=
  resolvePortName_eq_resolveIstioPortName _ _ "http" ⟨"ns", "svc"⟩ ⟨"ns", "dest-host"⟩ rfl

/-- C8: the validation harness returns success when every validator
passes, and otherwise returns, verbatim, the error of the first failing
validator, whatever validators follow it. -/
theorem runValidationFunctions_first_error {α : Type} (args : α)
    (fns pre post : List (α → Option String)) (fn : α → Option String) (e : String) :
    ((∀ g ∈ fns, g args = none) → runValidationFunctions args fns = none) ∧
    ((∀ g ∈ pre, g args = none) → fn args = some e →
      runValidationFunctions args (pre ++ fn :: post) = some e) := by
  constructor
  · intro h
    induction fns with
    | nil => rfl
    | cons g rest ih =>
      have hg : g args = none := h g (by simp)
      simp only [runValidationFunctions, hg]
      exact ih fun g' hg' => h g' (by simp [hg'])
  · intro hpre hfn
    induction pre with
    | nil => simp only [List.nil_append, runValidationFunctions, hfn]
    | cons g rest ih =>
      have hg : g args = none := hpre g (by simp)
      simp only [List.cons_append, runValidationFunctions, hg]
      exact ih fun g' hg' => hpre g' (by simp [hg'])

/-- Closed instance of runValidationFunctions_first_error: the second
validator fails and its error comes back verbatim although a later
validator would also fail with a different error. -/
theorem runValidationFunctions_first_error_witness :
    runValidationFunctions () [fun _ => none, fun _ => some "first failure", fun _ => some "later failure"]
      = some "first failure" :=
  (runValidationFunctions_first_error () [] [fun _ => none] [fun _ => some "later failure"]
      (fun _ => some "first failure") "first failure").2
    (by intro g hg; rw [List.mem_singleton] at hg; subst hg; rfl) rfl

/-- C4: whichever stage of Build fails, Build returns no configuration
at all, only the fixed stage-specific generic message — the same message
for every underlying cause — and the result no longer depends on any
later stage (so none runs). -/
theorem Build_stage_failure {σ : Type} (c : BuildStages σ) (s s1 s2 s3 s4 : σ) (cause : String) :
    (c.HealthProbesCollection s = .error cause →
      Build c s = .error "unable to generate health probes" ∧
      ∀ c' : BuildStages σ, c'.HealthProbesCollection = c.HealthProbesCollection →
        Build c' s = .error "unable to generate health probes") ∧
    (c.HealthProbesCollection s = .ok s1 →
      c.BackendHTTPSettingsCollection s1 = .error cause →
      Build c s = .error "unable to generate backend http settings" ∧
      ∀ c' : BuildStages σ,
        c'.HealthProbesCollection = c.HealthProbesCollection →
        c'.BackendHTTPSettingsCollection = c.BackendHTTPSettingsCollection →
        Build c' s = .error "unable to generate backend http settings") ∧
    (c.HealthProbesCollection s = .ok s1 →
      c.BackendHTTPSettingsCollection s1 = .ok s2 →
      c.BackendAddressPools s2 = .error cause →
      Build c s = .error "unable to generate backend address pools" ∧
      ∀ c' : BuildStages σ,
        c'.HealthProbesCollection = c.HealthProbesCollection →
        c'.BackendHTTPSettingsCollection = c.BackendHTTPSettingsCollection →
        c'.BackendAddressPools = c.BackendAddressPools →
        Build c' s = .error "unable to generate backend address pools") ∧
    (c.HealthProbesCollection s = .ok s1 →
      c.BackendHTTPSettingsCollection s1 = .ok s2 →
      c.BackendAddressPools s2 = .ok s3 →
      c.Listeners s3 = .error cause →
      Build c s = .error "unable to generate frontend listeners" ∧
      ∀ c' : BuildStages σ,
        c'.HealthProbesCollection = c.HealthProbesCollection →
        c'.BackendHTTPSettingsCollection = c.BackendHTTPSettingsCollection →
        c'.BackendAddressPools = c.BackendAddressPools →
        c'.Listeners = c.Listeners →
        Build c' s = .error "unable to generate frontend listeners") ∧
    (c.HealthProbesCollection s = .ok s1 →
      c.BackendHTTPSettingsCollection s1 = .ok s2 →
      c.BackendAddressPools s2 = .ok s3 →
      c.Listeners s3 = .ok s4 →
      c.RequestRoutingRules s4 = .error cause →
      Build c s = .error "unable to generate request routing rules" ∧
      ∀ c' : BuildStages σ,
        c'.HealthProbesCollection = c.HealthProbesCollection →
        c'.BackendHTTPSettingsCollection = c.BackendHTTPSettingsCollection →
        c'.BackendAddressPools = c.BackendAddressPools →
        c'.Listeners = c.Listeners →
        c'.RequestRoutingRules = c.RequestRoutingRules →
        Build c' s = .error "unable to generate request routing rules") := by
  refine ⟨?_, ?_, ?_, ?_, ?_⟩
  · intro h1
    refine ⟨by simp [Build, h1], ?_⟩
    intro c' e1
    simp [Build, e1, h1]
  · intro h1 h2
    refine ⟨by simp [Build, h1, h2], ?_⟩
    intro c' e1 e2
    simp [Build, e1, e2, h1, h2]
  · intro h1 h2 h3
    refine ⟨by simp [Build, h1, h2, h3], ?_⟩
    intro c' e1 e2 e3
    simp [Build, e1, e2, e3, h1, h2, h3]
  · intro h1 h2 h3 h4
    refine ⟨by simp [Build, h1, h2, h3, h4], ?_⟩
    intro c' e1 e2 e3 e4
    simp [Build, e1, e2, e3, e4, h1, h2, h3, h4]
  · intro h1 h2 h3 h4 h5
    refine ⟨by simp [Build, h1, h2, h3, h4, h5], ?_⟩
    intro c' e1 e2 e3 e4 e5
    simp [Build, e1, e2, e3, e4, e5, h1, h2, h3, h4, h5]

/-- Closed instance of Build_stage_failure: a builder whose
backend-settings stage fails with some internal cause yields the fixed
generic message for that stage. -/
theorem Build_stage_failure_witness :
    Build (σ := Nat)
        ⟨fun s => .ok (s + 1), fun _ => .error "cache miss: svc/ns", fun s => .ok s,
          fun s => .ok s, fun s => .ok s, id⟩ 0
      = .error "unable to generate backend http settings" :=
  ((Build_stage_failure
      ⟨fun s => .ok (s + 1), fun _ => .error "cache miss: svc/ns", fun s => .ok s,
        fun s => .ok s, fun s => .ok s, id⟩
      0 1 0 0 0 "cache miss: svc/ns").2.1 rfl rfl).1

/-- Length of a list splits over a Boolean predicate filter and its
negation. -/
theorem length_filter_add_length_filter_not {β : Type} (p : β → Bool) (l : List β) :
    (l.filter p).length + (l.filter (fun x => ! p x)).length = l.length := by
  induction l with
  | nil => rfl
  | cons x xs ih =>
    by_cases h : p x <;> simp [List.filter_cons, h] <;> omega

/-- C5: GetBlacklistedListeners partitions the existing listeners — the
two result lengths always sum to the existing listener count and no
listener lands in both lists. -/
theorem GetBlacklistedListeners_partition (er : ExistingResources) :
    er.GetBlacklistedListeners.1.length + er.GetBlacklistedListeners.2.length
        = er.Listeners.length ∧
    ∀ l : Listener, l ∈ er.GetBlacklistedListeners.1 → l ∉ er.GetBlacklistedListeners.2 := by
  constructor
  · exact length_filter_add_length_filter_not _ _
  · intro l h1 h2
    rw [ExistingResources.GetBlacklistedListeners] at h1 h2
    rw [List.mem_filter] at h1 h2
    rw [h1.2] at h2
    exact absurd h2.2 (by simp)

/-- Closed instance of GetBlacklistedListeners_partition: under a
universal wildcard target, a listener blacklisted by it is absent from
the non-blacklisted side. -/
theorem GetBlacklistedListeners_partition_witness :
    (⟨"default", "bye.com", ["/foo"]⟩ : Listener)
      ∉ (ExistingResources.GetBlacklistedListeners
          ⟨[⟨"default", "bye.com", ["/foo"]⟩], [⟨"", []⟩]⟩).2 :=
  (GetBlacklistedListeners_partition ⟨[⟨"default", "bye.com", ["/foo"]⟩], [⟨"", []⟩]⟩).2
    ⟨"default", "bye.com", ["/foo"]⟩ (by decide)

/-- The path loop of PruneIngressRules keeps exactly the paths whose
(host, path) target is not blacklisted. -/
theorem prunePathsLoop_eq_filter (blacklist : List Target) (host : String)
    (paths : List HTTPIngressPath) :
    prunePathsLoop blacklist host paths =
      paths.filter (fun p => ! (Target.mk host p.Path).IsBlacklisted blacklist) := by
  induction paths with
  | nil => rfl
  | cons path rest ih =>
    by_cases h : (Target.mk host path.Path).IsBlacklisted blacklist
    · simp [prunePathsLoop, h, List.filter_cons, ih]
    · simp [prunePathsLoop, h, List.filter_cons, ih]

/-- The rule loop of PruneIngressRules is the rule-wise filter the spec
describes: nil-HTTP rules are dropped, a pathless rule survives whole
exactly when its host is not blacklisted, and a rule with paths is
rebuilt from its non-blacklisted paths and survives exactly when at
least one remains. -/
theorem pruneRulesLoop_eq_filterMap (blacklist : List Target) (rs : List IngressRule) :
    pruneRulesLoop blacklist rs =
      rs.filterMap (fun rule =>
        match rule.HTTP with
        | none => none
        | some http =>
          match http.Paths with
          | none =>
            if (Target.mk rule.Host "").IsBlacklisted blacklist then none else some rule
          | some paths =>
            let kept := paths.filter
              (fun p => ! (Target.mk rule.Host p.Path).IsBlacklisted blacklist)
            if kept.isEmpty then none
            else some { Host := rule.Host, HTTP := some { Paths := some kept } }) := by
  induction rs with
  | nil => rfl
  | cons rule rest ih =>
    rw [List.filterMap_cons]
    match hhttp : rule.HTTP with
    | none => simp only [pruneRulesLoop, hhttp, ih]
    | some http =>
      match hpaths : http.Paths with
      | none =>
        by_cases h : (Target.mk rule.Host "").IsBlacklisted blacklist
        · simp [pruneRulesLoop, hhttp, hpaths, h, ih]
        · simp [pruneRulesLoop, hhttp, hpaths, h, ih]
      | some paths =>
        simp only [pruneRulesLoop, hhttp, hpaths, prunePathsLoop_eq_filter, ih]
        by_cases h : (paths.filter
            (fun p => ! (Target.mk rule.Host p.Path).IsBlacklisted blacklist)) = []
        · simp [h]
        · simp only [h, List.isEmpty_iff, if_false]
          rw [if_pos (by simpa [List.length_pos] using h)]

/-- Every rule the loop keeps has an HTTP section. -/
theorem pruneRulesLoop_http_isSome (blacklist : List Target) (rs : List IngressRule) :
    ∀ rule ∈ pruneRulesLoop blacklist rs, rule.HTTP ≠ none := by
  induction rs with
  | nil => intro rule h; cases h
  | cons r rest ih =>
    intro rule hmem
    match hhttp : r.HTTP with
    | none =>
      simp only [pruneRulesLoop, hhttp] at hmem
      exact ih rule hmem
    | some http =>
      match hpaths : http.Paths with
      | none =>
        simp only [pruneRulesLoop, hhttp, hpaths] at hmem
        by_cases h : (Target.mk r.Host "").IsBlacklisted blacklist
        · rw [if_pos h] at hmem
          exact ih rule hmem
        · rw [if_neg h] at hmem
          rcases List.mem_cons.mp hmem with rfl | hmem'
          · simp [hhttp]
          · exact ih rule hmem'
      | some paths =>
        simp only [pruneRulesLoop, hhttp, hpaths] at hmem
        by_cases h : (prunePathsLoop blacklist r.Host paths).length > 0
        · rw [if_pos h] at hmem
          rcases List.mem_cons.mp hmem with rfl | hmem'
          · simp
          · exact ih rule hmem'
        · rw [if_neg h] at hmem
          exact ih rule hmem

/-- C1: with a non-empty derived blacklist, PruneIngressRules keeps a
pathless rule exactly when its host is not blacklisted, and for a rule
with paths keeps exactly the non-blacklisted paths, keeping the rule
exactly when at least one path survives (rules with a nil HTTP section
are dropped). -/
theorem PruneIngressRules_keeps_iff (ing : Ingress)
    (prohibitedTargets : List AzureIngressProhibitedTarget)
    (hbl : GetTargetBlacklist prohibitedTargets ≠ []) :
    PruneIngressRules ing prohibitedTargets =
      ing.Spec.Rules.filterMap (fun rule =>
        match rule.HTTP with
        | none => none
        | some http =>
          match http.Paths with
          | none =>
            if (Target.mk rule.Host "").IsBlacklisted (GetTargetBlacklist prohibitedTargets)
            then none else some rule
          | some paths =>
            let kept := paths.filter
              (fun p => ! (Target.mk rule.Host p.Path).IsBlacklisted
                  (GetTargetBlacklist prohibitedTargets))
            if kept.isEmpty then none
            else some { Host := rule.Host, HTTP := some { Paths := some kept } }) := by
  unfold PruneIngressRules
  by_cases hrules : ing.Spec.Rules.isEmpty
  · rw [if_pos hrules]
    rw [List.isEmpty_iff] at hrules
    rw [hrules, List.filterMap_nil]
  · rw [if_neg hrules, if_neg (by simpa [List.isEmpty_iff] using hbl)]
    exact pruneRulesLoop_eq_filterMap _ _

/-- Closed instance of PruneIngressRules_keeps_iff: the blacklisted
(bye.com, /fox) path is removed while the surviving /ok path keeps its
rule, a pathless rule under an unlisted host is kept whole, and a
pathless rule under the path-free prohibited host gone.com is
dropped. -/
theorem PruneIngressRules_keeps_iff_witness :
    PruneIngressRules
        ⟨⟨[⟨"bye.com", some ⟨some [⟨"/fox", "svc", 80⟩, ⟨"/ok", "svc", 80⟩]⟩⟩,
           ⟨"hello.com", some ⟨none⟩⟩,
           ⟨"gone.com", some ⟨none⟩⟩]⟩⟩
        [⟨"bye.com", ["/fox"]⟩, ⟨"gone.com", []⟩] =
      [⟨"bye.com", some ⟨some [⟨"/ok", "svc", 80⟩]⟩⟩, ⟨"hello.com", some ⟨none⟩⟩] := by
  rw [PruneIngressRules_keeps_iff _ _ (by decide)]
  decide

/-- C6: the ingress threaded through the state-passing rendering of
PruneIngressRules comes back unchanged on every path of the body, while
the returned rules agree with PruneIngressRules. -/
theorem PruneIngressRulesTracked_no_mutation (ing : Ingress)
    (prohibitedTargets : List AzureIngressProhibitedTarget) :
    (PruneIngressRulesTracked ing prohibitedTargets).1 = ing ∧
    (PruneIngressRulesTracked ing prohibitedTargets).2 =
      PruneIngressRules ing prohibitedTargets := by
  unfold PruneIngressRulesTracked PruneIngressRules
  dsimp only
  constructor
  · split
    · rfl
    · split <;> rfl
  · split
    · rfl
    · split <;> rfl

/-- C10: PruneIngressRules returns the input rules themselves, nil-HTTP
rules included, when the rule list is empty or the derived blacklist is
empty; only with a non-empty blacklist are nil-HTTP rules filtered from
the output. -/
theorem PruneIngressRules_passthrough (ing : Ingress)
    (prohibitedTargets : List AzureIngressProhibitedTarget) :
    (ing.Spec.Rules = [] → PruneIngressRules ing prohibitedTargets = ing.Spec.Rules) ∧
    (GetTargetBlacklist prohibitedTargets = [] →
      PruneIngressRules ing prohibitedTargets = ing.Spec.Rules) ∧
    (GetTargetBlacklist prohibitedTargets ≠ [] →
      ∀ rule ∈ PruneIngressRules ing prohibitedTargets, rule.HTTP ≠ none) := by
  refine ⟨?_, ?_, ?_⟩
  · intro h
    unfold PruneIngressRules
    rw [if_pos (by simp [h])]
  · intro h
    unfold PruneIngressRules
    by_cases hrules : ing.Spec.Rules.isEmpty
    · rw [if_pos hrules]
    · rw [if_neg hrules, if_pos (by simp [h])]
  · intro h rule hmem
    unfold PruneIngressRules at hmem
    by_cases hrules : ing.Spec.Rules.isEmpty
    · rw [if_pos hrules] at hmem
      rw [List.isEmpty_iff] at hrules
      rw [hrules] at hmem
      cases hmem
    · rw [if_neg hrules, if_neg (by simpa [List.isEmpty_iff] using h)] at hmem
      exact pruneRulesLoop_http_isSome _ _ rule hmem

/-- Closed instance of PruneIngressRules_passthrough: with no prohibited
targets the rule list, a nil-HTTP rule included, comes back as is. -/
theorem PruneIngressRules_passthrough_witness :
    PruneIngressRules ⟨⟨[⟨"hello.com", none⟩, ⟨"bye.com", some ⟨none⟩⟩]⟩⟩ [] =
      [⟨"hello.com", none⟩, ⟨"bye.com", some ⟨none⟩⟩] :=
  (PruneIngressRules_passthrough ⟨⟨[⟨"hello.com", none⟩, ⟨"bye.com", some ⟨none⟩⟩]⟩⟩ []).2.1 rfl

end AGIC
